import Mathlib

/- Verification development for the pokesprite pixel-to-glyph rendering engine.
   Shallow embedding of src/pokesprite/image.py, ansi.py and dots.py.
   Pixels are RGBA with Nat channels (uint8 values in the source; the arithmetic
   performed by the source never overflows or depends on the 8-bit width).
   Grids are row-major lists of rows, mirroring numpy arrays of shape (H, W, 4).
   Fallible operations (PIL crop's ValueError, numpy's empty-reduction crash)
   return Option, with none standing for the raised exception. -/

/-- One RGBA sample, mirroring a pixel of a numpy (H, W, 4) uint8 array. -/
structure Pixel where
  r : Nat
  g : Nat
  b : Nat
  a : Nat
deriving DecidableEq

/-- An RGB color, mirroring the `Color = tuple[int, int, int]` alias of image.py. -/
structure Rgb where
  r : Nat
  g : Nat
  b : Nat
deriving DecidableEq

/-- A crop rectangle, mirroring `Box = tuple[int, int, int, int]` of image.py.
    PIL accepts arbitrary (also negative) integer coordinates, so fields are Int. -/
structure Box where
  left : Int
  upper : Int
  right : Int
  lower : Int
deriving DecidableEq

abbrev Row := List Pixel

abbrev Grid := List Row

/-- The pixel PIL uses to pad crop regions outside the source image: all channels 0. -/
def zeroPixel : Pixel := ⟨0, 0, 0, 0⟩

/-- Indexing `array[y][x]` with PIL's zero padding as the out-of-range default. -/
def pixelAt (array : Grid) (y x : Nat) : Pixel :=
  (array.getD y []).getD x zeroPixel

/-- `TRANSPARENCY_THRESHOLD = 128` of image.py. -/
def TRANSPARENCY_THRESHOLD : Nat := 128

/-- The per-pixel action of `set_transparent_color`: zero the alpha of a pixel
    whose RGB equals the target color (numpy mask `np.all(rgb == color)`). -/
def key_pixel (color : Rgb) (p : Pixel) : Pixel :=
  if p.r = color.r ∧ p.g = color.g ∧ p.b = color.b then ⟨p.r, p.g, p.b, 0⟩ else p

/-- image.py `set_transparent_color`: set alpha to 0 for every pixel matching `color`. -/
def set_transparent_color (array : Grid) (color : Rgb) : Grid :=
  array.map (fun row => row.map (key_pixel color))

/-- The per-pixel action of `fix_alpha_channel`: `np.where(alpha < threshold, 0, 255)`. -/
def fix_pixel (threshold : Nat) (p : Pixel) : Pixel :=
  if p.a < threshold then ⟨p.r, p.g, p.b, 0⟩ else ⟨p.r, p.g, p.b, 255⟩

/-- image.py `fix_alpha_channel` (source default `threshold=128`). -/
def fix_alpha_channel (array : Grid) (threshold : Nat) : Grid :=
  array.map (fun row => row.map (fix_pixel threshold))

/-- Minimum of a list of Nat, mirroring numpy `.min()` on a nonempty array
    ([] is never reached at a use site that matters). -/
def listMin : List Nat → Nat
  | [] => 0
  | x :: l => l.foldl Nat.min x

/-- Maximum of a list of Nat, mirroring numpy `.max()` on a nonempty array. -/
def listMax : List Nat → Nat
  | [] => 0
  | x :: l => l.foldl Nat.max x

/-- The row-major coordinate list `ys, xs = np.where(alpha > threshold)` of
    image.py `trim_array`, as (y, x) pairs. -/
def mask_coords (array : Grid) (threshold : Nat) : List (Nat × Nat) :=
  ((List.range array.length).map (fun y =>
    (List.range ((array.getD y []).length)).filterMap (fun x =>
      if (pixelAt array y x).a > threshold then some (y, x) else none))).flatten

/-- image.py `trim_array` (source default `threshold=128`): crop to the bounding
    box of pixels with alpha strictly above the threshold.  When no pixel
    qualifies, the source calls `.min()`/`.max()` on empty numpy arrays, which
    raises an uncaught ValueError; that crash is modelled as `none`. -/
def trim_array (array : Grid) (threshold : Nat) : Option Grid :=
  let coords := mask_coords array threshold
  if coords = [] then none
  else
    let ys := coords.map Prod.fst
    let xs := coords.map Prod.snd
    let y_min := listMin ys
    let y_max := listMax ys
    let x_min := listMin xs
    let x_max := listMax xs
    let upper := Nat.max y_min 0
    let left := Nat.max x_min 0
    let lower := Nat.min array.length y_max + 1
    let right := Nat.min (array.headD []).length x_max + 1
    some (((array.drop upper).take (lower - upper)).map (fun row =>
      (row.drop left).take (right - left)))

/-- PIL `Image.crop(box)` as called by `get_image_array`: raises ValueError
    (here `none`) when `right < left` or `lower < upper`; otherwise returns a
    `(lower - upper) × (right - left)` image whose in-range pixels are copied
    from the source and whose out-of-range region is padded with zero pixels. -/
def crop (array : Grid) (box : Box) : Option Grid :=
  if box.right < box.left then none
  else if box.lower < box.upper then none
  else some ((List.range (box.lower - box.upper).toNat).map (fun j =>
    (List.range (box.right - box.left).toNat).map (fun i =>
      let y : Int := box.upper + Int.ofNat j
      let x : Int := box.left + Int.ofNat i
      if 0 ≤ y ∧ y < (array.length : Int) ∧ 0 ≤ x ∧
          x < ((array.getD y.toNat []).length : Int)
      then pixelAt array y.toNat x.toNat
      else zeroPixel)))

/-- image.py `get_image_array` on an already-decoded RGBA grid.  Decoding and
    resizing are external collaborators (PIL `Image.open`/`Image.resize`); the
    decoded grid is taken as input and the resize filter as a function
    parameter.  Source order: crop, then resize, then transparency keying, then
    alpha fix, then trim (thresholds are the source defaults, 128). -/
def get_image_array (decoded : Grid) (resizeFn : Grid → Nat → Grid)
    (resize_factor : Option Nat) (box_area : Option Box)
    (transparency_color : Option Rgb) : Option Grid :=
  (match box_area with
    | some b => crop decoded b
    | none => some decoded).bind (fun image =>
      let image2 := match resize_factor with
        | some k => resizeFn image k
        | none => image
      let array := match transparency_color with
        | some c => set_transparent_color image2 c
        | none => image2
      trim_array (fix_alpha_channel array TRANSPARENCY_THRESHOLD) TRANSPARENCY_THRESHOLD)

/-- `ANSI_RESET_CODE = "\033[0m"` shared by ansi.py and dots.py. -/
def ANSI_RESET_CODE : String := "\x1b[0m"

/-- ansi.py `UPPER_BLOCK`. -/
def UPPER_BLOCK : String := "▀"

/-- ansi.py `LOWER_BLOCK`. -/
def LOWER_BLOCK : String := "▄"

/-- ansi.py `EMPTY_BLOCK`. -/
def EMPTY_BLOCK : String := " "

/-- ansi.py `SOLID_BLOCK` (two full blocks). -/
def SOLID_BLOCK : String := "██"

/-- ansi.py `WIDE_EMPTY_BLOCK` (two spaces). -/
def WIDE_EMPTY_BLOCK : String := "  "

/-- A single line break, as appended after each output row. -/
def LINE_BREAK : String := "\n"

/-- ansi.py `ansi_color_code`: the SGR truecolor escape for a foreground
    (`38`) or background (`48`) color. -/
def ansi_color_code (r g b : Nat) (background : Bool) : String :=
  "\x1b[" ++ (if background then "48" else "38") ++ ";2;" ++ toString r ++ ";"
    ++ toString g ++ ";" ++ toString b ++ "m"

/-- ansi.py `pixel_pair_to_ansi_block`.  The trailing `raise ValueError` of the
    source is modelled as `none`; each earlier `return` is `some`. -/
def pixel_pair_to_ansi_block (upper_pixel lower_pixel : Pixel) : Option String :=
  if upper_pixel.a = 0 ∧ lower_pixel.a = 0 then
    some (ANSI_RESET_CODE ++ EMPTY_BLOCK)
  else if upper_pixel.a ≠ 0 then
    let code1 := ansi_color_code upper_pixel.r upper_pixel.g upper_pixel.b false
    let code2 := if lower_pixel.a ≠ 0 then
        ansi_color_code lower_pixel.r lower_pixel.g lower_pixel.b true
      else ""
    some (ANSI_RESET_CODE ++ code1 ++ code2 ++ UPPER_BLOCK)
  else if lower_pixel.a ≠ 0 then
    some (ANSI_RESET_CODE
      ++ ansi_color_code lower_pixel.r lower_pixel.g lower_pixel.b false
      ++ LOWER_BLOCK)
  else none

/-- ansi.py `rows_pair`: `zip(*([iter(arr)] * 2))` pairs consecutive rows and
    drops a final unpaired row. -/
def rows_pair : Grid → List (Row × Row)
  | a :: b :: rest => (a, b) :: rows_pair rest
  | _ => []

/-- Sequencing of a fallible map over a list: the loop aborts (propagates the
    exception) as soon as one element fails.  Used to model Python loops whose
    body may raise. -/
def optMap (f : α → Option β) : List α → Option (List β)
  | [] => some []
  | x :: l =>
    match f x, optMap f l with
    | some y, some ys => some (y :: ys)
    | _, _ => none

/-- The inner loop of `array_to_ansi_art_small`: one block string per pixel
    pair of `zip(upper_row, lower_row)`. -/
def row_pair_blocks (upper_row lower_row : Row) : Option (List String) :=
  optMap (fun q => pixel_pair_to_ansi_block q.1 q.2) (upper_row.zip lower_row)

/-- The per-line block lists built by `array_to_ansi_art_small`: one list of
    block strings per row pair. -/
def small_art_lines (array : Grid) : Option (List (List String)) :=
  optMap (fun p => row_pair_blocks p.1 p.2) (rows_pair array)

/-- ansi.py `array_to_ansi_art_small`: concatenate the blocks of each row pair,
    terminate each line with a reset and a line break, and append a trailing
    reset.  `none` propagates the (unreachable) ValueError of the block
    conversion. -/
def array_to_ansi_art_small (array : Grid) : Option String :=
  (small_art_lines array).map (fun lines =>
    (lines.map (fun blocks =>
      blocks.foldl (fun acc s => acc ++ s) "" ++ ANSI_RESET_CODE ++ LINE_BREAK)).foldl
        (fun acc s => acc ++ s) "" ++ ANSI_RESET_CODE)

/-- ansi.py `array_to_ansi_art_large`: accumulator-style string build mirroring
    the Python `result += ...` loops: per pixel two spaces when alpha is 0,
    otherwise a foreground escape and two full blocks; per row a reset and a
    line break; a trailing reset at the end. -/
def array_to_ansi_art_large (array : Grid) : String :=
  (array.foldl (fun result row =>
    (row.foldl (fun acc p =>
      acc ++ (if p.a = 0 then WIDE_EMPTY_BLOCK
        else ansi_color_code p.r p.g p.b false ++ SOLID_BLOCK)) result)
      ++ ANSI_RESET_CODE ++ LINE_BREAK) "")
    ++ ANSI_RESET_CODE

/-- dots.py `WEIGHTS`, with the channel dimension dropped: the numpy constant
    repeats the same weight for the three color channels, so one weight per
    (row, column) position suffices. -/
def WEIGHTS : List (List Nat) := [[1, 1], [2, 2], [2, 2], [1, 1]]

/-- Weight of the sub-block position at row `dy`, column `dx`. -/
def weight_at (dy dx : Nat) : Nat := (WEIGHTS.getD dy []).getD dx 0

/-- dots.py `DOTS`: bit `i` of the braille glyph corresponds to column offset
    `(DOTS[i]).1` and row offset `(DOTS[i]).2` of the 2×4 sub-block. -/
def DOTS : List (Nat × Nat) :=
  [(0, 0), (0, 1), (0, 2), (1, 0), (1, 1), (1, 2), (0, 3), (1, 3)]

/-- The eight (row, column) positions of a 2×4 sub-block, row-major, as
    enumerated by `np.average` over axes (0, 1). -/
def BLOCK_POSITIONS : List (Nat × Nat) :=
  [(0, 0), (0, 1), (1, 0), (1, 1), (2, 0), (2, 1), (3, 0), (3, 1)]

/-- One channel of `np.average(rgb_array[y:y+4, x:x+2], axis=(0,1),
    weights=WEIGHTS).astype(int)`: weighted sum over the eight positions,
    divided by the total weight and truncated.  All quantities are exact in
    float64, and every division this development evaluates is by the total
    weight 12 of values whose exact rational distance from any integer is
    either 0 or at least 1/12, so float truncation coincides with Nat
    division. -/
def block_channel_avg (array : Grid) (y x : Nat) (f : Pixel → Nat) : Nat :=
  (BLOCK_POSITIONS.foldl (fun acc d =>
      acc + weight_at d.1 d.2 * f (pixelAt array (y + d.1) (x + d.2))) 0)
    / (BLOCK_POSITIONS.foldl (fun acc d => acc + weight_at d.1 d.2) 0)

/-- One glyph of dots.py `array_to_dots_art`: the weighted-average color escape
    followed by the braille character `0x2800` with bit `i` set iff the mask is
    true at `(y + dy, x + dx)` for `(dx, dy) = DOTS[i]`. -/
def dots_glyph (array : Grid) (threshold y x : Nat) : String :=
  let r := block_channel_avg array y x (fun p => p.r)
  let g := block_channel_avg array y x (fun p => p.g)
  let b := block_channel_avg array y x (fun p => p.b)
  let block := DOTS.enum.foldl (fun acc q =>
    if (pixelAt array (y + q.2.2) (x + q.2.1)).a > threshold
    then acc ||| (1 <<< q.1) else acc) 0x2800
  "\x1b[38;2;" ++ toString r ++ ";" ++ toString g ++ ";" ++ toString b ++ "m"
    ++ (Char.ofNat block).toString

/-- dots.py `array_to_dots_art` (source default `threshold=127`, the module's
    own `TRANSPARENCY_THRESHOLD`): one braille glyph per non-overlapping
    2-wide × 4-tall block (`range(0, height // 4 * 4, 4)` /
    `range(0, width // 2 * 2, 2)`), each line ended by a reset and a line
    break, with a trailing reset. -/
def array_to_dots_art (array : Grid) (threshold : Nat) : String :=
  let height := array.length
  let width := (array.headD []).length
  ((List.range (height / 4)).map (fun yb =>
    ((List.range (width / 2)).map (fun xb =>
      dots_glyph array threshold (4 * yb) (2 * xb))).foldl
        (fun acc s => acc ++ s) ""
      ++ ANSI_RESET_CODE ++ LINE_BREAK)).foldl (fun acc s => acc ++ s) ""
    ++ ANSI_RESET_CODE

/-- Modelled from the spec: the four-case half-block glyph table of §4.2, used
    as the specification side of claim C5 (blank for two transparent pixels,
    foreground-colored upper/lower half block for one visible pixel, and
    foreground + background colored upper half block for two visible pixels,
    each preceded by a full reset). -/
def half_block_claim (upper lower : Pixel) : String :=
  if upper.a = 0 ∧ lower.a = 0 then
    ANSI_RESET_CODE ++ EMPTY_BLOCK
  else if upper.a ≠ 0 ∧ lower.a = 0 then
    ANSI_RESET_CODE ++ ansi_color_code upper.r upper.g upper.b false ++ UPPER_BLOCK
  else if upper.a = 0 ∧ lower.a ≠ 0 then
    ANSI_RESET_CODE ++ ansi_color_code lower.r lower.g lower.b false ++ LOWER_BLOCK
  else
    ANSI_RESET_CODE ++ ansi_color_code upper.r upper.g upper.b false
      ++ ansi_color_code lower.r lower.g lower.b true ++ UPPER_BLOCK

/-- Concatenation of a list of strings, specification-side join for claim C9. -/
def strJoin : List String → String
  | [] => ""
  | s :: l => s ++ strJoin l

/-- Modelled from the spec: the per-pixel glyph of the solid-block renderer
    (§4.3): two blanks when alpha is 0, otherwise a foreground escape and two
    full blocks.  Specification side of claim C9. -/
def solid_pixel_claim (p : Pixel) : String :=
  if p.a = 0 then WIDE_EMPTY_BLOCK
  else ansi_color_code p.r p.g p.b false ++ SOLID_BLOCK

/-- Modelled from the spec: one output line of the solid-block renderer, ended
    by a reset and a line break.  Specification side of claim C9. -/
def solid_line_claim (row : Row) : String :=
  strJoin (row.map solid_pixel_claim) ++ ANSI_RESET_CODE ++ LINE_BREAK

/-- Modelled from the spec: the preparation pipeline in the order claim C3
    states it — keying first, then crop, then resize, then alpha
    normalization, then trim.  Specification side of claim C3. -/
def claimed_pipeline (decoded : Grid) (resizeFn : Grid → Nat → Grid)
    (resize_factor : Option Nat) (box_area : Option Box)
    (transparency_color : Option Rgb) : Option Grid :=
  let keyed := match transparency_color with
    | some c => set_transparent_color decoded c
    | none => decoded
  (match box_area with
    | some b => crop keyed b
    | none => some keyed).bind (fun image =>
      let image2 := match resize_factor with
        | some k => resizeFn image k
        | none => image
      trim_array (fix_alpha_channel image2 TRANSPARENCY_THRESHOLD) TRANSPARENCY_THRESHOLD)

/-- Channel-wise average of two pixels, truncated. -/
def avg2 (p q : Pixel) : Pixel :=
  ⟨(p.r + q.r) / 2, (p.g + q.g) / 2, (p.b + q.b) / 2, (p.a + q.a) / 2⟩

/-- A concrete instance of the external resize collaborator of §6: an integer
    upscale by factor `k` with a smoothing (neighbor-blending) resampling
    filter — each output pixel blends its source pixel with the horizontally
    next one.  Used to witness that the preparation result depends on whether
    keying runs before or after resampling. -/
def resize_blur (g0 : Grid) (k : Nat) : Grid :=
  let w := (g0.headD []).length
  (List.range (g0.length * k)).map (fun y =>
    (List.range (w * k)).map (fun x =>
      avg2 (pixelAt g0 (y / k) (x / k))
        (pixelAt g0 (y / k) (Nat.min ((x + 1) / k) (w - 1)))))

/-- A trivial resize stand-in for pipeline calls whose resize factor is `none`
    (the resize function is then never consulted). -/
def resize_id (g0 : Grid) (_ : Nat) : Grid := g0

/-- A fully transparent 1×1 image: its single pixel's alpha, 100, is below the
    128 threshold.  Failing input of claim C1. -/
def transparent1 : Grid := [[⟨5, 5, 5, 100⟩]]

/-- The 2×4 block of claim C2: two middle rows pure white, top and bottom rows
    pure black, all pixels fully opaque. -/
def wbGrid : Grid :=
  [[⟨0, 0, 0, 255⟩, ⟨0, 0, 0, 255⟩],
   [⟨255, 255, 255, 255⟩, ⟨255, 255, 255, 255⟩],
   [⟨255, 255, 255, 255⟩, ⟨255, 255, 255, 255⟩],
   [⟨0, 0, 0, 255⟩, ⟨0, 0, 0, 255⟩]]

/-- Decoded input of the claim C3 counterexample: one row, an opaque black
    pixel followed by an opaque white pixel. -/
def cexGrid : Grid := [[⟨0, 0, 0, 255⟩, ⟨255, 255, 255, 255⟩]]

/-- The identity crop box of `cexGrid` (all three options must be requested for
    claim C3, so a crop covering the whole image is used). -/
def cexBox : Box := ⟨0, 0, 2, 1⟩

/-- Pure black, the keyed color of the claim C3 counterexample. -/
def blackRgb : Rgb := ⟨0, 0, 0⟩

/-- A 1×1 fully opaque image, input of the claim C4 counterexample. -/
def oneOpaque : Grid := [[⟨10, 20, 30, 255⟩]]

/-- A crop box that is out of range of the 1×1 image `oneOpaque` (right and
    lower both exceed the image extent) but not inverted. -/
def outOfRangeBox : Box := ⟨0, 0, 2, 2⟩

/-- An inverted crop box (`right < left`), hypothesis input of the claim C4
    witness. -/
def invertedBox : Box := ⟨2, 0, 0, 2⟩

/-- A 2×2 grid with exactly one pixel above the alpha threshold, input of the
    claim C6 witness. -/
def w2Grid : Grid :=
  [[⟨1, 1, 1, 255⟩, ⟨2, 2, 2, 0⟩],
   [⟨3, 3, 3, 0⟩, ⟨4, 4, 4, 0⟩]]

/-- A 3×1 grid (odd row count), input of the claim C8 witness. -/
def odd3Grid : Grid := [[⟨1, 2, 3, 255⟩], [⟨4, 5, 6, 0⟩], [⟨7, 8, 9, 255⟩]]

/-- A 2-wide × 4-tall block of fully opaque pixels of one uniform color. -/
def uniform_block (r g b : Nat) : Grid :=
  [[⟨r, g, b, 255⟩, ⟨r, g, b, 255⟩], [⟨r, g, b, 255⟩, ⟨r, g, b, 255⟩],
   [⟨r, g, b, 255⟩, ⟨r, g, b, 255⟩], [⟨r, g, b, 255⟩, ⟨r, g, b, 255⟩]]

/-- getD of a mapped list, when the default is the image of a default. -/
theorem getD_map_eq {α β : Type} (f : α → β) (d : α) :
    ∀ (l : List α) (n : Nat), (l.map f).getD n (f d) = f (l.getD n d) := by
  intro l
  induction l with
  | nil => intro n; cases n <;> simp
  | cons x xs ih => intro n; cases n <;> simp [ih]

/-- Keying fixes PIL's zero padding pixel. -/
theorem key_pixel_zero (c : Rgb) : key_pixel c zeroPixel = zeroPixel := by
  unfold key_pixel zeroPixel
  split <;> rfl

/-- The initial accumulator bounds a max fold from below. -/
theorem init_le_foldl_max : ∀ (l : List Nat) (a : Nat), a ≤ l.foldl Nat.max a := by
  intro l
  induction l with
  | nil => intro a; simp
  | cons x xs ih =>
    intro a
    calc a ≤ Nat.max a x := Nat.le_max_left a x
    _ ≤ xs.foldl Nat.max (Nat.max a x) := ih (Nat.max a x)
    _ = (x :: xs).foldl Nat.max a := by simp [List.foldl]

/-- Every member bounds a max fold from below. -/
theorem mem_le_foldl_max : ∀ (l : List Nat) (a b : Nat), b ∈ l → b ≤ l.foldl Nat.max a := by
  intro l
  induction l with
  | nil => intro a b h; cases h
  | cons x xs ih =>
    intro a b h
    rcases List.mem_cons.mp h with rfl | h2
    · calc b ≤ Nat.max a b := Nat.le_max_right a b
      _ ≤ xs.foldl Nat.max (Nat.max a b) := init_le_foldl_max xs (Nat.max a b)
      _ = (b :: xs).foldl Nat.max a := by simp [List.foldl]
    · simpa [List.foldl] using ih (Nat.max a x) b h2

/-- A max fold is the accumulator or a member. -/
theorem foldl_max_mem : ∀ (l : List Nat) (a : Nat),
    l.foldl Nat.max a = a ∨ l.foldl Nat.max a ∈ l := by
  intro l
  induction l with
  | nil => intro a; left; rfl
  | cons x xs ih =>
    intro a
    rcases ih (Nat.max a x) with h | h
    · rcases Nat.le_total x a with hle | hle
      · left
        simp only [List.foldl] at *
        rw [h]
        exact Nat.max_eq_left hle
      · right
        simp only [List.foldl] at *
        rw [h]
        have hmx : Nat.max a x = x := Nat.max_eq_right hle
        rw [hmx]
        exact List.mem_cons_self x xs
    · right; exact List.mem_cons.mpr (Or.inr (by simpa [List.foldl] using h))

/-- The initial accumulator bounds a min fold from above. -/
theorem foldl_min_le_init : ∀ (l : List Nat) (a : Nat), l.foldl Nat.min a ≤ a := by
  intro l
  induction l with
  | nil => intro a; simp
  | cons x xs ih =>
    intro a
    calc (x :: xs).foldl Nat.min a = xs.foldl Nat.min (Nat.min a x) := by simp [List.foldl]
    _ ≤ Nat.min a x := ih (Nat.min a x)
    _ ≤ a := Nat.min_le_left a x

/-- A min fold is bounded above by every member. -/
theorem foldl_min_le_mem : ∀ (l : List Nat) (a b : Nat), b ∈ l → l.foldl Nat.min a ≤ b := by
  intro l
  induction l with
  | nil => intro a b h; cases h
  | cons x xs ih =>
    intro a b h
    rcases List.mem_cons.mp h with rfl | h2
    · calc (b :: xs).foldl Nat.min a = xs.foldl Nat.min (Nat.min a b) := by simp [List.foldl]
      _ ≤ Nat.min a b := foldl_min_le_init xs (Nat.min a b)
      _ ≤ b := Nat.min_le_right a b
    · simpa [List.foldl] using ih (Nat.min a x) b h2

/-- Every member bounds `listMax` from below. -/
theorem le_listMax {l : List Nat} {b : Nat} (h : b ∈ l) : b ≤ listMax l := by
  cases l with
  | nil => cases h
  | cons x xs =>
    rcases List.mem_cons.mp h with rfl | h2
    · exact init_le_foldl_max xs b
    · exact mem_le_foldl_max xs x b h2

/-- `listMax` of a nonempty list is a member. -/
theorem listMax_mem {l : List Nat} (h : l ≠ []) : listMax l ∈ l := by
  cases l with
  | nil => exact absurd rfl h
  | cons x xs =>
    rcases foldl_max_mem xs x with h2 | h2
    · rw [listMax, h2]; exact List.mem_cons_self x xs
    · exact List.mem_cons.mpr (Or.inr h2)

/-- `listMin` is bounded above by every member. -/
theorem listMin_le {l : List Nat} {b : Nat} (h : b ∈ l) : listMin l ≤ b := by
  cases l with
  | nil => cases h
  | cons x xs =>
    rcases List.mem_cons.mp h with rfl | h2
    · exact foldl_min_le_init xs b
    · exact foldl_min_le_mem xs x b h2

/-- Membership in the trim coordinate list, unfolded to index bounds and the
    alpha test. -/
theorem mem_mask_coords {array : Grid} {threshold y x : Nat} :
    (y, x) ∈ mask_coords array threshold ↔
      y < array.length ∧ x < (array.getD y []).length ∧
        (pixelAt array y x).a > threshold := by
  unfold mask_coords
  rw [List.mem_flatten]
  constructor
  · rintro ⟨l, hl, hmem⟩
    rw [List.mem_map] at hl
    obtain ⟨y2, hy2, rfl⟩ := hl
    rw [List.mem_range] at hy2
    rw [List.mem_filterMap] at hmem
    obtain ⟨x2, hx2, hif⟩ := hmem
    rw [List.mem_range] at hx2
    by_cases hc : (pixelAt array y2 x2).a > threshold
    · rw [if_pos hc] at hif
      have hpair : (y2, x2) = (y, x) := Option.some.inj hif
      have hyy : y2 = y := congrArg Prod.fst hpair
      have hxx : x2 = x := congrArg Prod.snd hpair
      subst hyy
      subst hxx
      exact ⟨hy2, hx2, hc⟩
    · rw [if_neg hc] at hif
      cases hif
  · rintro ⟨hy, hx, hp⟩
    have h1 : (y, x) ∈ List.filterMap
        (fun x2 => if (pixelAt array y x2).a > threshold then some (y, x2) else none)
        (List.range ((array.getD y []).length)) := by
      rw [List.mem_filterMap]
      exact ⟨x, List.mem_range.mpr hx, by rw [if_pos hp]⟩
    exact ⟨_, List.mem_map_of_mem _ (List.mem_range.mpr hy), h1⟩

/-- getD at an in-range index is a member. -/
theorem getD_mem_of_lt {α : Type} {l : List α} {n : Nat} (d : α) (h : n < l.length) :
    l.getD n d ∈ l := by
  rw [List.getD_eq_getElem?_getD, List.getElem?_eq_getElem h]
  exact List.getElem_mem h

/-- `optMap` succeeds elementwise: if every element maps to a success whose
    value satisfies `P`, the whole loop succeeds with the same length and all
    values satisfying `P`. -/
theorem optMap_forall {α β : Type} (f : α → Option β) (P : β → Prop) :
    ∀ (l : List α), (∀ x ∈ l, ∃ y, f x = some y ∧ P y) →
      ∃ ys, optMap f l = some ys ∧ ys.length = l.length ∧ ∀ y ∈ ys, P y := by
  intro l
  induction l with
  | nil => intro _; exact ⟨[], rfl, rfl, by intro y h; cases h⟩
  | cons x xs ih =>
    intro h
    obtain ⟨y, hy, hPy⟩ := h x (List.mem_cons_self x xs)
    obtain ⟨ys, hys, hlen, hP⟩ := ih (fun z hz => h z (List.mem_cons_of_mem x hz))
    refine ⟨y :: ys, ?_, by simp [hlen], ?_⟩
    · simp [optMap, hy, hys]
    · intro z hz
      rcases List.mem_cons.mp hz with rfl | hz2
      · exact hPy
      · exact hP z hz2

/-- `pixel_pair_to_ansi_block` never reaches its ValueError branch. -/
theorem pixel_pair_total (u l : Pixel) : ∃ s, pixel_pair_to_ansi_block u l = some s := by
  unfold pixel_pair_to_ansi_block
  split
  · exact ⟨_, rfl⟩
  · split
    · exact ⟨_, rfl⟩
    · split
      · exact ⟨_, rfl⟩
      · rename_i h1 h2 h3
        exact absurd ⟨by omega, by omega⟩ h1

/-- Both components of a row pair are rows of the grid. -/
theorem mem_rows_pair : ∀ (g : Grid) (p : Row × Row),
    p ∈ rows_pair g → p.1 ∈ g ∧ p.2 ∈ g
  | [], p, h => by simp [rows_pair] at h
  | [a], p, h => by simp [rows_pair] at h
  | a :: b :: rest, p, h => by
    rw [rows_pair] at h
    rcases List.mem_cons.mp h with rfl | h2
    · exact ⟨List.mem_cons_self _ _, List.mem_cons_of_mem _ (List.mem_cons_self _ _)⟩
    · have hp := mem_rows_pair rest p h2
      exact ⟨List.mem_cons_of_mem _ (List.mem_cons_of_mem _ hp.1),
        List.mem_cons_of_mem _ (List.mem_cons_of_mem _ hp.2)⟩

/-- The number of row pairs is half the row count, rounded down. -/
theorem rows_pair_length : ∀ (g : Grid), (rows_pair g).length = g.length / 2
  | [] => by simp [rows_pair]
  | [a] => by simp [rows_pair]
  | a :: b :: rest => by
    rw [rows_pair]
    simp only [List.length_cons, rows_pair_length rest]
    omega

/-- With an odd row count, pairing ignores the final row. -/
theorem rows_pair_dropLast_odd : ∀ (g : Grid), g.length % 2 = 1 →
    rows_pair g = rows_pair g.dropLast
  | [], h => by simp at h
  | [a], _ => by simp [rows_pair]
  | a :: b :: rest, h => by
    have hrest : rest.length % 2 = 1 := by
      simp only [List.length_cons] at h
      omega
    have hne : rest ≠ [] := by
      intro hcon
      rw [hcon] at hrest
      simp at hrest
    rw [rows_pair]
    have hdl : (a :: b :: rest).dropLast = a :: b :: rest.dropLast := by
      cases rest with
      | nil => exact absurd rfl hne
      | cons c cs => simp
    rw [hdl, rows_pair, rows_pair_dropLast_odd rest hrest]

/-- Left string fold of appends, pulled out of the accumulator. -/
theorem foldl_append_strJoin {α : Type} (f : α → String) :
    ∀ (l : List α) (s : String),
      l.foldl (fun acc x => acc ++ f x) s = s ++ strJoin (l.map f) := by
  intro l
  induction l with
  | nil => intro s; simp [strJoin, String.append_empty]
  | cons x xs ih =>
    intro s
    simp only [List.foldl, List.map, strJoin]
    rw [ih (s ++ f x), String.append_assoc]

/-- C1: on a fully transparent input (no pixel's alpha above the 128 threshold
    after normalization) the coordinate arrays of `trim_array` are empty, so
    the source's unguarded `.min()`/`.max()` on them raises an uncaught numpy
    ValueError (modelled as `none`) instead of the `EmptyImageError` the claim
    requires, and `get_image_array` produces no grid. -/
theorem C1_fully_transparent_crash :
    mask_coords (fix_alpha_channel transparent1 TRANSPARENCY_THRESHOLD)
        TRANSPARENCY_THRESHOLD = [] ∧
      get_image_array transparent1 resize_id none none none = none := by
  constructor
  · rfl
  · rfl

/-- C2 counterexample: on the 2×4 block with white middle rows and black
    top/bottom rows, the weighted average computed by `array_to_dots_art` is
    170 per channel — not 127 and not 128 as the claim states. -/
theorem C2_counterexample :
    block_channel_avg wbGrid 0 0 (fun p => p.r) = 170 ∧
      ¬(block_channel_avg wbGrid 0 0 (fun p => p.r) = 127 ∨
        block_channel_avg wbGrid 0 0 (fun p => p.r) = 128) := by
  constructor
  · rfl
  · decide

/-- C2 amended: on that block the glyph color is the weighted average with
    total weight 12, of which the two center rows contribute weight 8, giving
    (255·8)/12 = 170 per channel (truncated to an integer), and the emitted
    glyph is the all-dots braille character with that color. -/
theorem C2_weighted_average :
    array_to_dots_art wbGrid 127 =
      "\x1b[38;2;170;170;170m⣿\x1b[0m\n\x1b[0m" := by
  rfl

/-- Keying preserves the grid's row count. -/
theorem key_length (g : Grid) (c : Rgb) :
    (set_transparent_color g c).length = g.length := by
  unfold set_transparent_color
  exact List.length_map g _

/-- Row lookup in a keyed grid. -/
theorem key_rows_getD (g : Grid) (c : Rgb) (n : Nat) :
    (set_transparent_color g c).getD n [] = (g.getD n []).map (key_pixel c) := by
  unfold set_transparent_color
  have h := getD_map_eq (fun row : Row => row.map (key_pixel c)) [] g n
  simpa using h

/-- Pixel lookup in a keyed grid: keying commutes with (zero-padded) indexing. -/
theorem key_pixelAt (g : Grid) (c : Rgb) (y x : Nat) :
    pixelAt (set_transparent_color g c) y x = key_pixel c (pixelAt g y x) := by
  unfold pixelAt
  rw [key_rows_getD]
  have h := getD_map_eq (key_pixel c) zeroPixel (g.getD y []) x
  rw [key_pixel_zero] at h
  exact h

/-- Transparency keying commutes with PIL cropping: keying is pointwise and
    fixes the zero padding pixel, so keying the cropped image equals cropping
    the keyed image. -/
theorem crop_key_comm (g : Grid) (c : Rgb) (b : Box) :
    crop (set_transparent_color g c) b =
      (crop g b).map (fun i => set_transparent_color i c) := by
  unfold crop
  by_cases h1 : b.right < b.left
  · rw [if_pos h1, if_pos h1]
    rfl
  · rw [if_neg h1, if_neg h1]
    by_cases h2 : b.lower < b.upper
    · rw [if_pos h2, if_pos h2]
      rfl
    · rw [if_neg h2, if_neg h2, Option.map_some']
      congr 1
      conv_rhs => unfold set_transparent_color
      rw [List.map_map]
      apply List.map_congr_left
      intro j _
      simp only [Function.comp]
      rw [List.map_map]
      apply List.map_congr_left
      intro i _
      simp only [Function.comp]
      rw [key_length, key_rows_getD, List.length_map, key_pixelAt,
        apply_ite (key_pixel c), key_pixel_zero]

/-- C3 amended: `get_image_array` applies decode, then crop, then resize, then
    transparency keying, then alpha normalization, then trim; keying runs after
    crop and resize.  When no resize is requested this coincides with the
    claimed keying-first pipeline, because keying commutes with cropping. -/
theorem C3_keying_commutes_without_resize (decoded : Grid)
    (rf : Grid → Nat → Grid) (box_area : Option Box) (c : Option Rgb) :
    get_image_array decoded rf none box_area c =
      claimed_pipeline decoded rf none box_area c := by
  cases c with
  | none =>
    cases box_area with
    | none => rfl
    | some b => rfl
  | some c0 =>
    cases box_area with
    | none => rfl
    | some b =>
      unfold get_image_array claimed_pipeline
      dsimp only
      rw [crop_key_comm decoded c0 b]
      cases crop decoded b <;> rfl

/-- C4 amended: a crop box that is inverted (`right < left` or
    `lower < upper`) makes `get_image_array` fail with the ValueError PIL's
    `Image.crop` raises for inverted boxes (no `InvalidBoxError` exists in the
    code), emitting no output; out-of-range but non-inverted boxes do not fail
    at all — PIL pads them with transparent pixels. -/
theorem C4_inverted_box_fails (decoded : Grid) (rf : Grid → Nat → Grid)
    (k : Option Nat) (c : Option Rgb) (box : Box)
    (h : box.right < box.left ∨ box.lower < box.upper) :
    get_image_array decoded rf k (some box) c = none := by
  have hc : crop decoded box = none := by
    unfold crop
    rcases h with h | h
    · rw [if_pos h]
    · by_cases h2 : box.right < box.left
      · rw [if_pos h2]
      · rw [if_neg h2, if_pos h]
  unfold get_image_array
  dsimp only
  rw [hc]
  rfl

/-- C4 witness: the inverted box `(2, 0, 0, 2)` makes `get_image_array` fail. -/
theorem C4_witness :
    (invertedBox.right < invertedBox.left ∨ invertedBox.lower < invertedBox.upper) ∧
      get_image_array oneOpaque resize_id none (some invertedBox) none = none :=
  ⟨by decide,
    C4_inverted_box_fails oneOpaque resize_id none none invertedBox (by decide)⟩

/-- C5: for every pixel pair, `pixel_pair_to_ansi_block` emits exactly the
    glyph the claim's four-case table prescribes — blank with no color escape
    when both alphas are 0, a foreground-colored upper/lower half block when
    exactly one pixel is visible, and an upper half block with foreground the
    upper and background the lower color when both are visible, each emission
    preceded by a full reset. -/
theorem C5_half_block_cases (upper lower : Pixel) :
    pixel_pair_to_ansi_block upper lower = some (half_block_claim upper lower) := by
  unfold pixel_pair_to_ansi_block half_block_claim
  by_cases hu : upper.a = 0 <;> by_cases hl : lower.a = 0 <;>
    simp [hu, hl, String.append_empty]

/-- C9: `array_to_ansi_art_large` emits, pixel by pixel, two spaces for alpha
    0 and a foreground escape followed by two full blocks otherwise, each row
    terminated by a reset and a line break, with one trailing reset. -/
theorem C9_solid_blocks (array : Grid) :
    array_to_ansi_art_large array =
      strJoin (array.map solid_line_claim) ++ ANSI_RESET_CODE := by
  unfold array_to_ansi_art_large
  have hpix : (fun (acc : String) (p : Pixel) =>
      acc ++ (if p.a = 0 then WIDE_EMPTY_BLOCK
        else ansi_color_code p.r p.g p.b false ++ SOLID_BLOCK))
      = (fun acc p => acc ++ solid_pixel_claim p) := rfl
  rw [hpix]
  have houter : (fun (result : String) (row : Row) =>
      row.foldl (fun acc p => acc ++ solid_pixel_claim p) result
        ++ ANSI_RESET_CODE ++ LINE_BREAK)
      = (fun result row => result ++ solid_line_claim row) := by
    funext result row
    rw [foldl_append_strJoin solid_pixel_claim row result]
    unfold solid_line_claim
    simp [String.append_assoc]
  rw [houter, foldl_append_strJoin solid_line_claim array]
  have hempty : ("" : String) ++ strJoin (array.map solid_line_claim)
      = strJoin (array.map solid_line_claim) := by
    simp
  rw [hempty]

/-- C10: `pixel_pair_to_ansi_block` is total — its trailing ValueError branch
    is unreachable, since the three preceding cases cover all alpha
    combinations — and consequently `array_to_ansi_art_small` never raises on
    any grid. -/
theorem C10_total :
    (∀ u l : Pixel, (pixel_pair_to_ansi_block u l).isSome = true) ∧
      ∀ g : Grid, (array_to_ansi_art_small g).isSome = true := by
  constructor
  · intro u l
    obtain ⟨s, hs⟩ := pixel_pair_total u l
    rw [hs]
    rfl
  · intro g
    have h1 : ∀ p ∈ rows_pair g,
        ∃ bs, row_pair_blocks p.1 p.2 = some bs ∧ True := by
      intro p _
      have h2 : ∀ q ∈ p.1.zip p.2,
          ∃ s, pixel_pair_to_ansi_block q.1 q.2 = some s ∧ True := by
        intro q _
        obtain ⟨s, hs⟩ := pixel_pair_total q.1 q.2
        exact ⟨s, hs, trivial⟩
      obtain ⟨bs, hbs, _, _⟩ :=
        optMap_forall (fun q => pixel_pair_to_ansi_block q.1 q.2) (fun _ => True)
          (p.1.zip p.2) h2
      exact ⟨bs, hbs, trivial⟩
    obtain ⟨lines, hlines, _, _⟩ :=
      optMap_forall (fun p => row_pair_blocks p.1 p.2) (fun _ => True)
        (rows_pair g) h1
    unfold array_to_ansi_art_small small_art_lines
    rw [hlines]
    rfl

/-- C7: `array_to_dots_art` on a 2×4 all-opaque uniform-color block emits one
    braille glyph, `chr(0x28FF)` with all eight dot bits set, preceded by a
    foreground escape carrying exactly that uniform color, then the per-line
    reset and line break and the trailing reset. -/
theorem C7_uniform_braille (r g b : Nat) :
    array_to_dots_art (uniform_block r g b) 127
      = "\x1b[38;2;" ++ toString r ++ ";" ++ toString g ++ ";" ++ toString b
          ++ "m⣿\x1b[0m\n\x1b[0m" := by
  unfold uniform_block
  have h1 : block_channel_avg
      [[⟨r, g, b, 255⟩, ⟨r, g, b, 255⟩], [⟨r, g, b, 255⟩, ⟨r, g, b, 255⟩],
       [⟨r, g, b, 255⟩, ⟨r, g, b, 255⟩], [⟨r, g, b, 255⟩, ⟨r, g, b, 255⟩]] 0 0
      (fun p => p.r)
      = (0 + 1*r + 1*r + 2*r + 2*r + 2*r + 2*r + 1*r + 1*r) / 12 := rfl
  have h2 : block_channel_avg
      [[⟨r, g, b, 255⟩, ⟨r, g, b, 255⟩], [⟨r, g, b, 255⟩, ⟨r, g, b, 255⟩],
       [⟨r, g, b, 255⟩, ⟨r, g, b, 255⟩], [⟨r, g, b, 255⟩, ⟨r, g, b, 255⟩]] 0 0
      (fun p => p.g)
      = (0 + 1*g + 1*g + 2*g + 2*g + 2*g + 2*g + 1*g + 1*g) / 12 := rfl
  have h3 : block_channel_avg
      [[⟨r, g, b, 255⟩, ⟨r, g, b, 255⟩], [⟨r, g, b, 255⟩, ⟨r, g, b, 255⟩],
       [⟨r, g, b, 255⟩, ⟨r, g, b, 255⟩], [⟨r, g, b, 255⟩, ⟨r, g, b, 255⟩]] 0 0
      (fun p => p.b)
      = (0 + 1*b + 1*b + 2*b + 2*b + 2*b + 2*b + 1*b + 1*b) / 12 := rfl
  have hr : block_channel_avg
      [[⟨r, g, b, 255⟩, ⟨r, g, b, 255⟩], [⟨r, g, b, 255⟩, ⟨r, g, b, 255⟩],
       [⟨r, g, b, 255⟩, ⟨r, g, b, 255⟩], [⟨r, g, b, 255⟩, ⟨r, g, b, 255⟩]] 0 0
      (fun p => p.r) = r := by rw [h1]; omega
  have hg : block_channel_avg
      [[⟨r, g, b, 255⟩, ⟨r, g, b, 255⟩], [⟨r, g, b, 255⟩, ⟨r, g, b, 255⟩],
       [⟨r, g, b, 255⟩, ⟨r, g, b, 255⟩], [⟨r, g, b, 255⟩, ⟨r, g, b, 255⟩]] 0 0
      (fun p => p.g) = g := by rw [h2]; omega
  have hb : block_channel_avg
      [[⟨r, g, b, 255⟩, ⟨r, g, b, 255⟩], [⟨r, g, b, 255⟩, ⟨r, g, b, 255⟩],
       [⟨r, g, b, 255⟩, ⟨r, g, b, 255⟩], [⟨r, g, b, 255⟩, ⟨r, g, b, 255⟩]] 0 0
      (fun p => p.b) = b := by rw [h3]; omega
  have houter : array_to_dots_art
      [[⟨r, g, b, 255⟩, ⟨r, g, b, 255⟩], [⟨r, g, b, 255⟩, ⟨r, g, b, 255⟩],
       [⟨r, g, b, 255⟩, ⟨r, g, b, 255⟩], [⟨r, g, b, 255⟩, ⟨r, g, b, 255⟩]] 127
      = dots_glyph
          [[⟨r, g, b, 255⟩, ⟨r, g, b, 255⟩], [⟨r, g, b, 255⟩, ⟨r, g, b, 255⟩],
           [⟨r, g, b, 255⟩, ⟨r, g, b, 255⟩], [⟨r, g, b, 255⟩, ⟨r, g, b, 255⟩]] 127 0 0
          ++ ANSI_RESET_CODE ++ LINE_BREAK ++ ANSI_RESET_CODE := by
    unfold array_to_dots_art
    dsimp only
    norm_num
    rw [show List.range 1 = [0] from rfl]
    simp only [List.map_cons, List.map_nil, List.foldl_cons, List.foldl_nil,
      String.empty_append]
  have halpha : ∀ yy xx : Nat,
      (pixelAt [[⟨r, g, b, 255⟩, ⟨r, g, b, 255⟩], [⟨r, g, b, 255⟩, ⟨r, g, b, 255⟩],
        [⟨r, g, b, 255⟩, ⟨r, g, b, 255⟩], [⟨r, g, b, 255⟩, ⟨r, g, b, 255⟩]] yy xx).a
      = (pixelAt [[⟨0, 0, 0, 255⟩, ⟨0, 0, 0, 255⟩], [⟨0, 0, 0, 255⟩, ⟨0, 0, 0, 255⟩],
        [⟨0, 0, 0, 255⟩, ⟨0, 0, 0, 255⟩], [⟨0, 0, 0, 255⟩, ⟨0, 0, 0, 255⟩]] yy xx).a := by
    intro yy xx
    rcases yy with _|_|_|_|yy <;> rcases xx with _|_|xx <;> rfl
  rw [houter]
  unfold dots_glyph
  rw [hr, hg, hb]
  have hF : (fun (acc : Nat) (q : Nat × Nat × Nat) =>
      if (pixelAt [[⟨r, g, b, 255⟩, ⟨r, g, b, 255⟩], [⟨r, g, b, 255⟩, ⟨r, g, b, 255⟩],
        [⟨r, g, b, 255⟩, ⟨r, g, b, 255⟩], [⟨r, g, b, 255⟩, ⟨r, g, b, 255⟩]]
        (0 + q.2.2) (0 + q.2.1)).a > 127
      then acc ||| 1 <<< q.1 else acc)
      = (fun acc q =>
      if (pixelAt [[⟨0, 0, 0, 255⟩, ⟨0, 0, 0, 255⟩], [⟨0, 0, 0, 255⟩, ⟨0, 0, 0, 255⟩],
        [⟨0, 0, 0, 255⟩, ⟨0, 0, 0, 255⟩], [⟨0, 0, 0, 255⟩, ⟨0, 0, 0, 255⟩]]
        (0 + q.2.2) (0 + q.2.1)).a > 127
      then acc ||| 1 <<< q.1 else acc) := by
    funext acc q
    rw [halpha]
  rw [hF]
  simp only [String.append_assoc]
  rfl

/-- C3 counterexample: with transparency keying, crop and resize all
    requested, `get_image_array` (which keys after cropping and resizing) and
    the claimed keying-first pipeline disagree on a concrete input: a
    black-then-white row, keying black, an identity crop box and factor-2
    upscaling through the smoothing resample `resize_blur`. -/
theorem C3_counterexample :
    get_image_array cexGrid resize_blur (some 2) (some cexBox) (some blackRgb) ≠
      claimed_pipeline cexGrid resize_blur (some 2) (some cexBox) (some blackRgb) := by
  decide

/-- C8: on a grid with an odd number of rows, `array_to_ansi_art_small`
    silently drops the final unpaired row: the pairing covers exactly the
    first `height - 1` rows, there are `height / 2` output lines, and every
    line holds exactly one glyph block per column. -/
theorem C8_odd_rows (g : Grid) (w : Nat)
    (hodd : g.length % 2 = 1) (hrect : ∀ row ∈ g, row.length = w) :
    ∃ lines, small_art_lines g = some lines ∧
      lines.length = g.length / 2 ∧
      2 * (g.length / 2) = g.length - 1 ∧
      rows_pair g = rows_pair g.dropLast ∧
      (∀ line ∈ lines, line.length = w) ∧
      (array_to_ansi_art_small g).isSome = true := by
  have hpairs : ∀ p ∈ rows_pair g,
      ∃ bs, row_pair_blocks p.1 p.2 = some bs ∧ bs.length = w := by
    intro p hp
    have hmem := mem_rows_pair g p hp
    have h1 : p.1.length = w := hrect p.1 hmem.1
    have h2 : p.2.length = w := hrect p.2 hmem.2
    have hz : ∀ q ∈ p.1.zip p.2,
        ∃ s, pixel_pair_to_ansi_block q.1 q.2 = some s ∧ True := by
      intro q _
      obtain ⟨s, hs⟩ := pixel_pair_total q.1 q.2
      exact ⟨s, hs, trivial⟩
    obtain ⟨bs, hbs, hlen, _⟩ :=
      optMap_forall (fun q => pixel_pair_to_ansi_block q.1 q.2) (fun _ => True)
        (p.1.zip p.2) hz
    refine ⟨bs, hbs, ?_⟩
    rw [hlen, List.length_zip, h1, h2]
    exact Nat.min_self w
  obtain ⟨lines, hlines, hlen, hP⟩ :=
    optMap_forall (fun p => row_pair_blocks p.1 p.2) (fun bs => bs.length = w)
      (rows_pair g) hpairs
  refine ⟨lines, hlines, ?_, ?_, rows_pair_dropLast_odd g hodd, hP, ?_⟩
  · rw [hlen, rows_pair_length]
  · omega
  · unfold array_to_ansi_art_small small_art_lines
    rw [hlines]
    rfl

/-- C8 witness: the 3×1 grid `odd3Grid` has odd height; its rendering drops
    the third row and produces one line of one glyph. -/
theorem C8_witness :
    odd3Grid.length % 2 = 1 ∧
      (∀ row ∈ odd3Grid, row.length = 1) ∧
      ∃ lines, small_art_lines odd3Grid = some lines ∧
        lines.length = odd3Grid.length / 2 ∧
        2 * (odd3Grid.length / 2) = odd3Grid.length - 1 ∧
        rows_pair odd3Grid = rows_pair odd3Grid.dropLast ∧
        (∀ line ∈ lines, line.length = 1) ∧
        (array_to_ansi_art_small odd3Grid).isSome = true :=
  ⟨by decide, by decide, C8_odd_rows odd3Grid 1 (by decide) (by decide)⟩

/-- C6: when at least one pixel's alpha exceeds the threshold, `trim_array`
    returns a grid of exactly `(y_max - y_min + 1)` rows and
    `(x_max - x_min + 1)` columns, where the extrema range over the
    coordinates of qualifying pixels; the bounding box includes the pixels at
    `y_max`/`x_max` and its lower/right bound never exceeds the grid extent. -/
theorem C6_trim_bbox (array : Grid) (w : Nat)
    (hrect : ∀ row ∈ array, row.length = w)
    (hne : mask_coords array 128 ≠ []) :
    ∃ t, trim_array array 128 = some t ∧
      t.length = listMax ((mask_coords array 128).map Prod.fst)
        - listMin ((mask_coords array 128).map Prod.fst) + 1 ∧
      (∀ row ∈ t, row.length = listMax ((mask_coords array 128).map Prod.snd)
        - listMin ((mask_coords array 128).map Prod.snd) + 1) ∧
      listMax ((mask_coords array 128).map Prod.fst) + 1 ≤ array.length ∧
      listMax ((mask_coords array 128).map Prod.snd) + 1 ≤ w := by
  have hysne : (mask_coords array 128).map Prod.fst ≠ [] := by
    intro hcon
    exact hne (List.map_eq_nil_iff.mp hcon)
  have hxsne : (mask_coords array 128).map Prod.snd ≠ [] := by
    intro hcon
    exact hne (List.map_eq_nil_iff.mp hcon)
  obtain ⟨py, hpymem, hpy⟩ := List.mem_map.mp (listMax_mem hysne)
  obtain ⟨qx, hqxmem, hqx⟩ := List.mem_map.mp (listMax_mem hxsne)
  obtain ⟨py1, py2⟩ := py
  obtain ⟨qx1, qx2⟩ := qx
  simp only at hpy hqx
  have hpyb := mem_mask_coords.mp hpymem
  have hqxb := mem_mask_coords.mp hqxmem
  have hymax_lt : listMax ((mask_coords array 128).map Prod.fst) < array.length := by
    rw [← hpy]
    exact hpyb.1
  have hxmax_lt : listMax ((mask_coords array 128).map Prod.snd) < w := by
    rw [← hqx]
    have hrow : (array.getD qx1 []).length = w :=
      hrect (array.getD qx1 []) (getD_mem_of_lt [] hqxb.1)
    rw [← hrow]
    exact hqxb.2.1
  have hymin_le : listMin ((mask_coords array 128).map Prod.fst)
      ≤ listMax ((mask_coords array 128).map Prod.fst) :=
    listMin_le (listMax_mem hysne)
  have hxmin_le : listMin ((mask_coords array 128).map Prod.snd)
      ≤ listMax ((mask_coords array 128).map Prod.snd) :=
    listMin_le (listMax_mem hxsne)
  have hW : (array.headD []).length = w := by
    cases array with
    | nil => simp at hymax_lt
    | cons a l => exact hrect a (List.mem_cons_self a l)
  have hmax0y : Nat.max (listMin ((mask_coords array 128).map Prod.fst)) 0
      = listMin ((mask_coords array 128).map Prod.fst) :=
    Nat.max_eq_left (Nat.zero_le _)
  have hmax0x : Nat.max (listMin ((mask_coords array 128).map Prod.snd)) 0
      = listMin ((mask_coords array 128).map Prod.snd) :=
    Nat.max_eq_left (Nat.zero_le _)
  have hminH : Nat.min array.length (listMax ((mask_coords array 128).map Prod.fst))
      = listMax ((mask_coords array 128).map Prod.fst) :=
    Nat.min_eq_right (Nat.le_of_lt hymax_lt)
  have hminW : Nat.min (array.headD []).length
        (listMax ((mask_coords array 128).map Prod.snd))
      = listMax ((mask_coords array 128).map Prod.snd) := by
    rw [hW]
    exact Nat.min_eq_right (Nat.le_of_lt hxmax_lt)
  unfold trim_array
  dsimp only
  rw [if_neg hne, hmax0y, hmax0x, hminH, hminW]
  refine ⟨_, rfl, ?_, ?_, by omega, by omega⟩
  · rw [List.length_map, List.length_take, List.length_drop]
    have hmin : min (listMax ((mask_coords array 128).map Prod.fst) + 1
          - listMin ((mask_coords array 128).map Prod.fst))
        (array.length - listMin ((mask_coords array 128).map Prod.fst))
        = listMax ((mask_coords array 128).map Prod.fst) + 1
          - listMin ((mask_coords array 128).map Prod.fst) :=
      Nat.min_eq_left (by omega)
    rw [hmin]
    omega
  · intro row hrow
    obtain ⟨orig, horig, rfl⟩ := List.mem_map.mp hrow
    have horig2 : orig ∈ array :=
      List.drop_subset _ _ (List.take_subset _ _ horig)
    have hw : orig.length = w := hrect orig horig2
    rw [List.length_take, List.length_drop, hw]
    have hmin : min (listMax ((mask_coords array 128).map Prod.snd) + 1
          - listMin ((mask_coords array 128).map Prod.snd))
        (w - listMin ((mask_coords array 128).map Prod.snd))
        = listMax ((mask_coords array 128).map Prod.snd) + 1
          - listMin ((mask_coords array 128).map Prod.snd) :=
      Nat.min_eq_left (by omega)
    rw [hmin]
    omega

/-- C6 witness: on the 2×2 grid with a single opaque pixel at (0, 0), the
    trimmed result is the 1×1 grid holding that pixel. -/
theorem C6_witness :
    (∀ row ∈ w2Grid, row.length = 2) ∧ mask_coords w2Grid 128 ≠ [] ∧
      ∃ t, trim_array w2Grid 128 = some t ∧
        t.length = listMax ((mask_coords w2Grid 128).map Prod.fst)
          - listMin ((mask_coords w2Grid 128).map Prod.fst) + 1 ∧
        (∀ row ∈ t, row.length = listMax ((mask_coords w2Grid 128).map Prod.snd)
          - listMin ((mask_coords w2Grid 128).map Prod.snd) + 1) ∧
        listMax ((mask_coords w2Grid 128).map Prod.fst) + 1 ≤ w2Grid.length ∧
        listMax ((mask_coords w2Grid 128).map Prod.snd) + 1 ≤ 2 :=
  ⟨by decide, by decide, C6_trim_bbox w2Grid 2 (by decide) (by decide)⟩

/-- C4 counterexample: a crop box out of range of the decoded image (but not
    inverted) does not fail at all — PIL pads the out-of-range region with
    transparent pixels and `get_image_array` emits output, contradicting the
    claimed `InvalidBoxError`. -/
theorem C4_counterexample :
    get_image_array oneOpaque resize_id none (some outOfRangeBox) none =
      some [[⟨10, 20, 30, 255⟩]] := by
  rfl
